import Mathlib

/-!
Verification development for the spatial context synchronization engine
(argon `ContextService` / `ContextServiceProvider`).

The repository ships only the TypeScript declaration file
`src/context.d.ts`; every method body is absent.  All operational
definitions below are therefore modelled from the specification's own
operational descriptions (sections 4.1-4.4 and 7 of the spec), with the
declaration file's field docs used where they state values.  Machine
numbers (millisecond timestamps, positions, quaternion components) are
modelled as exact rationals, so the spec's "within numeric tolerance"
becomes exact equality.
-/

/-- Modelled from the spec: the Clock component of `ContextService`
(spec section 4.1).  The implementation of the `timestamp`, `deltaTime`
and `maxDeltaTime` fields declared in `context.d.ts` is absent from the
repository; this follows the spec's words: `timestamp` starts at the
sentinel `-1`, `deltaTime` at `0`, and `maxDeltaTime` caps each frame's
delta.  The `started` flag distinguishes the spec's "first call" from
subsequent calls. -/
structure Clock where
  timestamp : ℚ
  deltaTime : ℚ
  maxDeltaTime : ℚ
  started : Bool
deriving DecidableEq

/-- Modelled from the spec: the default `maxDeltaTime`.  The constructor
body is absent from the repository; the doc comment on `maxDeltaTime` in
`context.d.ts` states "By default, the value is 1/3s (333.3ms)". -/
def defaultMaxDeltaTime : ℚ := 1000 / 3

/-- The Clock state before any frame has been processed. -/
def Clock.init (maxDT : ℚ) : Clock :=
  { timestamp := -1, deltaTime := 0, maxDeltaTime := maxDT, started := false }

/-- Modelled from the spec: `advance(rawTimestampMs)` (spec section 4.1).
"On first call, `timestamp` is initialized to `-1` (sentinel); `deltaTime`
is `0`.  On subsequent calls,
`deltaTime = min(rawTimestampMs - previousTimestamp, maxDeltaTime)`;
`timestamp += deltaTime` (re-accumulated, not copied raw)." -/
def Clock.advance (c : Clock) (raw : ℚ) : Clock :=
  if c.started then
    let dt := min (raw - c.timestamp) c.maxDeltaTime
    { c with deltaTime := dt, timestamp := c.timestamp + dt }
  else
    { c with timestamp := -1, deltaTime := 0, started := true }

/-- Feed a sequence of raw frame timestamps to the clock, in order. -/
def Clock.run (c : Clock) : List ℚ → Clock
  | [] => c
  | r :: rs => (c.advance r).run rs

theorem Clock.run_nil (c : Clock) : c.run [] = c := rfl

theorem Clock.run_cons (c : Clock) (r : ℚ) (rs : List ℚ) :
    c.run (r :: rs) = (c.advance r).run rs := rfl

theorem Clock.advance_started (c : Clock) (raw : ℚ) (h : c.started = true) :
    c.advance raw =
      { c with deltaTime := min (raw - c.timestamp) c.maxDeltaTime,
               timestamp := c.timestamp + min (raw - c.timestamp) c.maxDeltaTime } := by
  simp [Clock.advance, h]

theorem Clock.advance_first (c : Clock) (raw : ℚ) (h : c.started = false) :
    c.advance raw = { c with timestamp := -1, deltaTime := 0, started := true } := by
  simp [Clock.advance, h]

/-- Invariant carried along a run of an already-started clock whose next
raw timestamps are at least the current timestamp and non-decreasing:
every prefix of the run keeps `deltaTime` within `[0, maxDeltaTime]`,
keeps the timestamp below the raw inputs still to come, and moves the
timestamp monotonically at each step. -/
theorem Clock.run_inv (rs : List ℚ) :
    ∀ c : Clock, c.started = true → 0 ≤ c.maxDeltaTime →
    0 ≤ c.deltaTime → c.deltaTime ≤ c.maxDeltaTime →
    List.Chain' (· ≤ ·) (c.timestamp :: rs) →
    ∀ k : ℕ,
      0 ≤ (c.run (rs.take k)).deltaTime ∧
      (c.run (rs.take k)).deltaTime ≤ c.maxDeltaTime ∧
      (c.run (rs.take k)).timestamp ≤ (c.run (rs.take (k + 1))).timestamp := by
  induction rs with
  | nil =>
    intro c _ _ hdl hdu _ k
    simp only [List.take_nil, Clock.run_nil]
    exact ⟨hdl, hdu, le_refl _⟩
  | cons r rs ih =>
    intro c hst hm hdl hdu hch k
    have hcr : c.timestamp ≤ r := (List.chain'_cons.mp hch).1
    have hch' : List.Chain' (· ≤ ·) (r :: rs) := (List.chain'_cons.mp hch).2
    -- the state after consuming r
    have hadv : c.advance r =
        { c with deltaTime := min (r - c.timestamp) c.maxDeltaTime,
                 timestamp := c.timestamp + min (r - c.timestamp) c.maxDeltaTime } :=
      c.advance_started r hst
    have hdt0 : 0 ≤ min (r - c.timestamp) c.maxDeltaTime :=
      le_min (by linarith) hm
    have hts : c.timestamp ≤ (c.advance r).timestamp := by
      rw [hadv]; dsimp only; linarith
    have hts_le_r : (c.advance r).timestamp ≤ r := by
      rw [hadv]; dsimp only
      have := min_le_left (r - c.timestamp) c.maxDeltaTime
      linarith
    have hch'' : List.Chain' (· ≤ ·) ((c.advance r).timestamp :: rs) := by
      cases rs with
      | nil => simp
      | cons r' rs' =>
        have hrr' : r ≤ r' := (List.chain'_cons.mp hch').1
        exact List.chain'_cons.mpr ⟨le_trans hts_le_r hrr',
          (List.chain'_cons.mp hch').2⟩
    have hstarted' : (c.advance r).started = true := by rw [hadv]; exact hst
    have hmax' : (c.advance r).maxDeltaTime = c.maxDeltaTime := by rw [hadv]
    have hdl' : 0 ≤ (c.advance r).deltaTime := by rw [hadv]; exact hdt0
    have hdu' : (c.advance r).deltaTime ≤ (c.advance r).maxDeltaTime := by
      rw [hadv]; dsimp only
      exact min_le_right _ _
    cases k with
    | zero =>
      refine ⟨hdl, hdu, ?_⟩
      simp only [List.take_zero, List.take_succ_cons, Clock.run]
      exact hts
    | succ k =>
      have := ih (c.advance r) hstarted' (by rw [hmax']; exact hm) hdl'
        (by rw [hmax']; exact hdu'.trans_eq hmax') hch'' k
      simp only [List.take_succ_cons, Clock.run_cons]
      refine ⟨this.1, by rw [← hmax']; exact this.2.1, this.2.2⟩

/-- The first `advance` call only initializes the sentinel state, so the
invariant run lemma applies from the second call onward.  This records the
bounds and the step monotonicity for a run from the initial clock, under
the amended hypotheses: raw timestamps non-decreasing and at least the
sentinel `-1`. -/
theorem Clock.init_run_inv (m : ℚ) (raws : List ℚ) (hm : 0 ≤ m)
    (hchain : List.Chain' (· ≤ ·) raws) (hfirst : ∀ r ∈ raws, (-1 : ℚ) ≤ r) :
    ∀ k : ℕ,
      0 ≤ ((Clock.init m).run (raws.take k)).deltaTime ∧
      ((Clock.init m).run (raws.take k)).deltaTime ≤ m ∧
      ((Clock.init m).run (raws.take k)).timestamp ≤
        ((Clock.init m).run (raws.take (k + 1))).timestamp := by
  cases raws with
  | nil =>
    intro k
    simp only [List.take_nil, Clock.run_nil]
    exact ⟨le_refl _, hm, le_refl _⟩
  | cons r0 rest =>
    have hadv : (Clock.init m).advance r0 =
        { timestamp := -1, deltaTime := 0, maxDeltaTime := m, started := true } :=
      (Clock.init m).advance_first r0 rfl
    have hch : List.Chain' (· ≤ ·) ((-1 : ℚ) :: rest) := by
      cases rest with
      | nil => simp
      | cons r1 rest' =>
        have h01 : r0 ≤ r1 := (List.chain'_cons.mp hchain).1
        have hr0 : (-1 : ℚ) ≤ r0 := hfirst r0 (by simp)
        exact List.chain'_cons.mpr ⟨le_trans hr0 h01, (List.chain'_cons.mp hchain).2⟩
    have hinv := Clock.run_inv rest ((Clock.init m).advance r0)
      (by rw [hadv]) (by rw [hadv]; exact hm) (by rw [hadv]) (by rw [hadv]; exact hm)
      (by rw [hadv]; exact hch)
    intro k
    cases k with
    | zero =>
      simp only [List.take_zero, List.take_succ_cons, Clock.run_nil, Clock.run_cons]
      refine ⟨le_refl _, hm, ?_⟩
      rw [hadv]
      exact le_refl (-1 : ℚ)
    | succ k =>
      have := hinv k
      simp only [List.take_succ_cons, Clock.run_cons]
      have hmax : ((Clock.init m).advance r0).maxDeltaTime = m := by rw [hadv]
      exact ⟨this.1, by rw [← hmax]; exact this.2.1, this.2.2⟩

/-- Claim C1, counterexample to the claim as stated: the spec's own
formula `deltaTime = min(rawTimestampMs - previousTimestamp, maxDeltaTime)`
produces a negative `deltaTime` on a backward-jumping raw timestamp
(first frame at raw time 0, second at raw time -5), so `deltaTime` is
not always within `[0, maxDeltaTime]` for arbitrary raw sequences. -/
theorem clock_deltaTime_counterexample :
    (((Clock.init defaultMaxDeltaTime).advance 0).advance (-5)).deltaTime < 0 := by
  have h1 : (Clock.init defaultMaxDeltaTime).advance 0 =
      { timestamp := -1, deltaTime := 0, maxDeltaTime := defaultMaxDeltaTime,
        started := true } := (Clock.init defaultMaxDeltaTime).advance_first 0 rfl
  have h2 := ((Clock.init defaultMaxDeltaTime).advance 0).advance_started (-5) (by rw [h1])
  rw [h2, h1]
  dsimp only
  rw [min_eq_left (by norm_num [defaultMaxDeltaTime])]
  norm_num

/-- Claim C1 (amended): after each clock advance, `deltaTime` lies in
`[0, maxDeltaTime]` provided `maxDeltaTime` is nonnegative and the raw
timestamps are non-decreasing and at least the sentinel `-1`; and on
every non-first advance `deltaTime` is computed as
`min(rawTimestampMs - previousTimestamp, maxDeltaTime)`. -/
theorem clock_deltaTime_bounds (m : ℚ) (raws : List ℚ) (hm : 0 ≤ m)
    (hchain : List.Chain' (· ≤ ·) raws) (hfirst : ∀ r ∈ raws, (-1 : ℚ) ≤ r) :
    (∀ k : ℕ,
      0 ≤ ((Clock.init m).run (raws.take k)).deltaTime ∧
      ((Clock.init m).run (raws.take k)).deltaTime ≤ m) ∧
    (∀ (c : Clock) (raw : ℚ), c.started = true →
      (c.advance raw).deltaTime = min (raw - c.timestamp) c.maxDeltaTime) := by
  refine ⟨fun k => ⟨(Clock.init_run_inv m raws hm hchain hfirst k).1,
    (Clock.init_run_inv m raws hm hchain hfirst k).2.1⟩, fun c raw h => ?_⟩
  rw [c.advance_started raw h]

/-- Claim C1 witness: the amended bounds evaluated on the concrete raw
timestamp sequence `[0, 100, 500]` after three advances. -/
theorem clock_deltaTime_bounds_witness :
    0 ≤ ((Clock.init defaultMaxDeltaTime).run (([0, 100, 500] : List ℚ).take 3)).deltaTime ∧
    ((Clock.init defaultMaxDeltaTime).run (([0, 100, 500] : List ℚ).take 3)).deltaTime ≤
      defaultMaxDeltaTime :=
  (clock_deltaTime_bounds defaultMaxDeltaTime [0, 100, 500]
    (by norm_num [defaultMaxDeltaTime])
    (by norm_num [List.chain'_cons, List.chain'_singleton])
    (by norm_num [List.forall_mem_cons])).1 3

/-- Claim C2, counterexample to the claim as stated: on a
backward-jumping raw timestamp the accumulated `timestamp` decreases
(from the sentinel `-1` down to `-5`), so `timestamp` is not
non-decreasing for arbitrary raw sequences. -/
theorem clock_timestamp_counterexample :
    (((Clock.init defaultMaxDeltaTime).advance 0).advance (-5)).timestamp <
      ((Clock.init defaultMaxDeltaTime).advance 0).timestamp := by
  have h1 : (Clock.init defaultMaxDeltaTime).advance 0 =
      { timestamp := -1, deltaTime := 0, maxDeltaTime := defaultMaxDeltaTime,
        started := true } := (Clock.init defaultMaxDeltaTime).advance_first 0 rfl
  have h2 := ((Clock.init defaultMaxDeltaTime).advance 0).advance_started (-5) (by rw [h1])
  rw [h2, h1]
  dsimp only
  rw [min_eq_left (by norm_num [defaultMaxDeltaTime])]
  norm_num

/-- Claim C2 (amended): the clock `timestamp` is non-decreasing across a
sequence of `advance` calls provided `maxDeltaTime` is nonnegative and
the raw timestamps are non-decreasing and at least the sentinel `-1`;
and the first advance produces the first-call state in which `timestamp`
is the sentinel `-1` and `deltaTime` is `0`. -/
theorem clock_timestamp_monotone (m : ℚ) (raws : List ℚ) (hm : 0 ≤ m)
    (hchain : List.Chain' (· ≤ ·) raws) (hfirst : ∀ r ∈ raws, (-1 : ℚ) ≤ r) :
    (∀ k : ℕ,
      ((Clock.init m).run (raws.take k)).timestamp ≤
        ((Clock.init m).run (raws.take (k + 1))).timestamp) ∧
    (∀ raw : ℚ, ((Clock.init m).advance raw).timestamp = -1 ∧
      ((Clock.init m).advance raw).deltaTime = 0) := by
  refine ⟨fun k => (Clock.init_run_inv m raws hm hchain hfirst k).2.2, fun raw => ?_⟩
  rw [(Clock.init m).advance_first raw rfl]
  exact ⟨rfl, rfl⟩

/-- Claim C2 witness: monotonicity of the timestamp evaluated on the
concrete raw timestamp sequence `[0, 100, 500]` between the second and
third advance. -/
theorem clock_timestamp_monotone_witness :
    ((Clock.init defaultMaxDeltaTime).run (([0, 100, 500] : List ℚ).take 2)).timestamp ≤
      ((Clock.init defaultMaxDeltaTime).run (([0, 100, 500] : List ℚ).take 3)).timestamp :=
  (clock_timestamp_monotone defaultMaxDeltaTime [0, 100, 500]
    (by norm_num [defaultMaxDeltaTime])
    (by norm_num [List.chain'_cons, List.chain'_singleton])
    (by norm_num [List.forall_mem_cons])).1 2

/-- A 3-vector of exact rational coordinates, standing in for the float
triples of the source's pose records. -/
structure Vec3 where
  x : ℚ
  y : ℚ
  z : ℚ
deriving DecidableEq

def Vec3.zero : Vec3 := ⟨0, 0, 0⟩

def Vec3.add (a b : Vec3) : Vec3 := ⟨a.x + b.x, a.y + b.y, a.z + b.z⟩

def Vec3.neg (a : Vec3) : Vec3 := ⟨-a.x, -a.y, -a.z⟩

theorem Vec3.add_neg_self (a : Vec3) : a.add a.neg = Vec3.zero := by
  cases a
  simp only [Vec3.add, Vec3.neg, Vec3.zero, Vec3.mk.injEq]
  refine ⟨by ring, by ring, by ring⟩

theorem Vec3.neg_add_self (a : Vec3) : a.neg.add a = Vec3.zero := by
  cases a
  simp only [Vec3.add, Vec3.neg, Vec3.zero, Vec3.mk.injEq]
  refine ⟨by ring, by ring, by ring⟩

/-- A quaternion with exact rational components, standing in for the
float quaternions of the source's orientation records. -/
structure Quat where
  w : ℚ
  x : ℚ
  y : ℚ
  z : ℚ
deriving DecidableEq

def Quat.one : Quat := ⟨1, 0, 0, 0⟩

/-- Hamilton product. -/
def Quat.mul (a b : Quat) : Quat :=
  ⟨a.w * b.w - a.x * b.x - a.y * b.y - a.z * b.z,
   a.w * b.x + a.x * b.w + a.y * b.z - a.z * b.y,
   a.w * b.y - a.x * b.z + a.y * b.w + a.z * b.x,
   a.w * b.z + a.x * b.y - a.y * b.x + a.z * b.w⟩

def Quat.conj (a : Quat) : Quat := ⟨a.w, -a.x, -a.y, -a.z⟩

def Quat.normSq (a : Quat) : ℚ := a.w ^ 2 + a.x ^ 2 + a.y ^ 2 + a.z ^ 2

/-- Rotation of a vector by a (unit) quaternion: the vector part of
`q * (0, v) * conj q`. -/
def Quat.rotate (q : Quat) (v : Vec3) : Vec3 :=
  let r := (q.mul ⟨0, v.x, v.y, v.z⟩).mul q.conj
  ⟨r.x, r.y, r.z⟩

theorem Quat.mul_assoc (a b c : Quat) : (a.mul b).mul c = a.mul (b.mul c) := by
  cases a; cases b; cases c
  simp only [Quat.mul, Quat.mk.injEq]
  refine ⟨by ring, by ring, by ring, by ring⟩

theorem Quat.one_mul (a : Quat) : Quat.one.mul a = a := by
  cases a
  simp only [Quat.mul, Quat.one, Quat.mk.injEq]
  refine ⟨by ring, by ring, by ring, by ring⟩

theorem Quat.mul_one (a : Quat) : a.mul Quat.one = a := by
  cases a
  simp only [Quat.mul, Quat.one, Quat.mk.injEq]
  refine ⟨by ring, by ring, by ring, by ring⟩

theorem Quat.normSq_mul (a b : Quat) : (a.mul b).normSq = a.normSq * b.normSq := by
  cases a; cases b
  simp only [Quat.mul, Quat.normSq]
  ring

theorem Quat.mul_conj_self (a : Quat) : a.mul a.conj = ⟨a.normSq, 0, 0, 0⟩ := by
  cases a
  simp only [Quat.mul, Quat.conj, Quat.normSq, Quat.mk.injEq]
  refine ⟨by ring, by ring, by ring, by ring⟩

theorem Quat.conj_mul_self (a : Quat) : a.conj.mul a = ⟨a.normSq, 0, 0, 0⟩ := by
  cases a
  simp only [Quat.mul, Quat.conj, Quat.normSq, Quat.mk.injEq]
  refine ⟨by ring, by ring, by ring, by ring⟩

theorem Quat.mul_conj_self_of_unit (a : Quat) (h : a.normSq = 1) :
    a.mul a.conj = Quat.one := by
  rw [Quat.mul_conj_self, h]; rfl

theorem Quat.conj_mul_self_of_unit (a : Quat) (h : a.normSq = 1) :
    a.conj.mul a = Quat.one := by
  rw [Quat.conj_mul_self, h]; rfl

theorem Quat.rotate_one (v : Vec3) : Quat.one.rotate v = v := by
  cases v
  simp only [Quat.rotate, Quat.mul, Quat.conj, Quat.one, Vec3.mk.injEq]
  refine ⟨by ring, by ring, by ring⟩

theorem Quat.rotate_mul (a b : Quat) (v : Vec3) :
    (a.mul b).rotate v = a.rotate (b.rotate v) := by
  cases a; cases b; cases v
  simp only [Quat.rotate, Quat.mul, Quat.conj, Vec3.mk.injEq]
  refine ⟨by ring, by ring, by ring⟩

theorem Quat.rotate_add (q : Quat) (u v : Vec3) :
    q.rotate (u.add v) = (q.rotate u).add (q.rotate v) := by
  cases q; cases u; cases v
  simp only [Quat.rotate, Quat.mul, Quat.conj, Vec3.add, Vec3.mk.injEq]
  refine ⟨by ring, by ring, by ring⟩

theorem Quat.rotate_zero (q : Quat) : q.rotate Vec3.zero = Vec3.zero := by
  cases q
  simp only [Quat.rotate, Quat.mul, Quat.conj, Vec3.zero, Vec3.mk.injEq]
  refine ⟨by ring, by ring, by ring⟩

/-- A rigid transform (pose): a position and an orientation relative to
some reference frame, acting on coordinates as `x ↦ pos + rotate ori x`.
Modelled from the spec's pose composition rules (spec section 4.2):
"position transforms as `parent_position + parent_orientation.rotate(local_position)`;
orientation composes as quaternion multiplication". -/
structure Transform where
  position : Vec3
  orientation : Quat
deriving DecidableEq

def Transform.idT : Transform := ⟨Vec3.zero, Quat.one⟩

/-- Compose two transforms: `t1` is the parent (outer) transform, `t2`
the local (inner) one. -/
def Transform.compose (t1 t2 : Transform) : Transform :=
  ⟨t1.position.add (t1.orientation.rotate t2.position),
   t1.orientation.mul t2.orientation⟩

/-- Invert a transform ("Inversion reverses both", spec section 4.2);
correct when the orientation is a unit quaternion. -/
def Transform.invT (t : Transform) : Transform :=
  ⟨t.orientation.conj.rotate t.position.neg, t.orientation.conj⟩

/-- The spec's data-model requirement that orientations be unit
quaternions, at the level of a single transform. -/
def Transform.unitOri (t : Transform) : Prop := t.orientation.normSq = 1

theorem Transform.idT_unitOri : Transform.idT.unitOri := by
  simp [Transform.unitOri, Transform.idT, Quat.normSq, Quat.one]

theorem Transform.compose_unitOri {a b : Transform}
    (ha : a.unitOri) (hb : b.unitOri) : (a.compose b).unitOri := by
  simp only [Transform.unitOri, Transform.compose] at *
  rw [Quat.normSq_mul, ha, hb, mul_one]

theorem Vec3.zero_add (a : Vec3) : Vec3.zero.add a = a := by
  cases a
  simp only [Vec3.add, Vec3.zero, Vec3.mk.injEq]
  refine ⟨by ring, by ring, by ring⟩

theorem Vec3.add_zero (a : Vec3) : a.add Vec3.zero = a := by
  cases a
  simp only [Vec3.add, Vec3.zero, Vec3.mk.injEq]
  refine ⟨by ring, by ring, by ring⟩

theorem Transform.compose_idT_left (t : Transform) : Transform.idT.compose t = t := by
  simp only [Transform.compose, Transform.idT, Quat.rotate_one, Quat.one_mul,
    Vec3.zero_add]

theorem Transform.compose_idT_right (t : Transform) : t.compose Transform.idT = t := by
  simp only [Transform.compose, Transform.idT, Quat.rotate_zero, Quat.mul_one,
    Vec3.add_zero]

theorem Transform.compose_assoc (a b c : Transform) :
    (a.compose b).compose c = a.compose (b.compose c) := by
  simp only [Transform.compose, Transform.mk.injEq]
  refine ⟨?_, Quat.mul_assoc _ _ _⟩
  rw [Quat.rotate_add, Quat.rotate_mul]
  cases a.position with
  | mk ax ay az =>
    cases (a.orientation.rotate b.position) with
    | mk bx bY bz =>
      cases (a.orientation.rotate (b.orientation.rotate c.position)) with
      | mk cx cy cz =>
        simp only [Vec3.add, Vec3.mk.injEq]
        refine ⟨by ring, by ring, by ring⟩

theorem Transform.compose_invT_self (t : Transform) (h : t.unitOri) :
    t.compose t.invT = Transform.idT := by
  simp only [Transform.compose, Transform.invT, Transform.idT, Transform.mk.injEq]
  constructor
  · rw [← Quat.rotate_mul, Quat.mul_conj_self_of_unit _ h, Quat.rotate_one,
      Vec3.add_neg_self]
  · exact Quat.mul_conj_self_of_unit _ h

theorem Transform.invT_compose_self (t : Transform) (h : t.unitOri) :
    t.invT.compose t = Transform.idT := by
  simp only [Transform.compose, Transform.invT, Transform.idT, Transform.mk.injEq]
  constructor
  · rw [← Quat.rotate_add, Vec3.neg_add_self, Quat.rotate_zero]
  · exact Quat.conj_mul_self_of_unit _ h

theorem Transform.invT_unitOri {t : Transform} (h : t.unitOri) : t.invT.unitOri := by
  simp only [Transform.unitOri, Transform.invT, Quat.conj, Quat.normSq, neg_sq] at h ⊢
  exact h

/-- The pose round-trip cancellation at the level of raw transforms:
`(cB⁻¹ ∘ cA) ∘ (cA⁻¹ ∘ cB) = id` for unit-orientation transforms. -/
theorem Transform.compose_roundTrip (cA cB : Transform)
    (hA : cA.unitOri) (hB : cB.unitOri) :
    (cB.invT.compose cA).compose (cA.invT.compose cB) = Transform.idT := by
  rw [Transform.compose_assoc, ← Transform.compose_assoc cA cA.invT cB,
    Transform.compose_invT_self cA hA, Transform.compose_idT_left,
    Transform.invT_compose_self cB hB]

/-- A reference frame: either another entity (parent-in-frame) or one of
a closed set of root frames (spec section 3: "each entity's reference
frame is either another entity or one of a small closed set of root
frames").  Root frames are indexed by a natural number (e.g. `root 0`
for the Earth-fixed/ECEF-like frame). -/
inductive FrameRef where
  | root (r : ℕ)
  | entity (id : String)
deriving DecidableEq

/-- An entity's pose definition (spec section 3): a reference frame, a
position 3-vector function of time and an orientation quaternion
function of time, both relative to that reference frame. -/
structure PoseDef where
  frame : FrameRef
  position : ℚ → Vec3
  orientation : ℚ → Quat

/-- Modelled from the spec: the PoseGraph component (spec section 4.2).
The implementations behind `entities`, `getEntityPose` and
`_getReachableAncestorReferenceFrames` in `context.d.ts` are absent from
the repository.  For each entity id, `defs` yields `none` when the id is
unknown to the graph, `some none` when the entity is known but its pose
is currently undefined, and `some (some pd)` when a pose definition is
available. -/
structure PoseGraph where
  defs : String → Option (Option PoseDef)

/-- Whether the graph knows (tracks) the entity id. -/
def PoseGraph.known (g : PoseGraph) (e : String) : Bool := (g.defs e).isSome

/-- The entity's pose definition, collapsing "unknown" and "known but
undefined" to `none` (both make resolution depending on the entity
unresolvable; spec section 7, *UnknownEntity*). -/
def PoseGraph.poseDef (g : PoseGraph) (e : String) : Option PoseDef :=
  (g.defs e).getD none

/-- The entity's local transform (relative to its parent frame) sampled
at time `t`. -/
def PoseDef.transformAt (pd : PoseDef) (t : ℚ) : Transform :=
  ⟨pd.position t, pd.orientation t⟩

/-- The maximum ancestor-walk depth (spec section 4.2: "until reaching a
root frame or exceeding a maximum depth (cycle guard)").  The spec fixes
no particular value; any positive bound yields the behavior the claims
describe. -/
def maxAncestorDepth : ℕ := 64

/-- Modelled from the spec: the upward ancestor-chain walk of
`resolvePose` step 1 (spec section 4.2): "Walk the reference-frame chain
from `entityId` upward, collecting the ordered list of (frame, transform)
pairs, until reaching a root frame or exceeding a maximum depth (cycle
guard → returns Undefined)".  Returns the collected list and the
terminal root frame, or `none` on an unknown/undefined entity or when
the depth bound is exhausted. -/
def PoseGraph.walkChain (g : PoseGraph) (t : ℚ) :
    String → ℕ → Option (List (String × Transform) × ℕ)
  | _, 0 => none
  | e, Nat.succ fuel =>
    match g.poseDef e with
    | none => none
    | some pd =>
      match pd.frame with
      | .root r => some ([(e, pd.transformAt t)], r)
      | .entity p =>
        match g.walkChain t p fuel with
        | none => none
        | some (l, r) => some ((e, pd.transformAt t) :: l, r)

/-- The ancestor chain of a reference frame: a root frame is its own
(empty) chain, an entity frame is walked upward with the cycle guard. -/
def PoseGraph.chainFrom (g : PoseGraph) (t : ℚ) :
    FrameRef → Option (List (String × Transform) × ℕ)
  | .root r => some ([], r)
  | .entity e => g.walkChain t e maxAncestorDepth

/-- The entity ids occurring in a collected chain. -/
def frameNames (l : List (String × Transform)) : List String := l.map Prod.fst

/-- Modelled from the spec: `resolvePose` step 3 (spec section 4.2):
"Find the lowest common ancestor frame between the two chains (if both
terminate at the same root frame without an earlier common node, the
root is the ancestor)".  Returns `some (some e)` for a common ancestor
entity `e`, `some none` for the common root, and `none` when the chains
lie in disjoint frame forests. -/
def findCommonAncestor (la lb : List (String × Transform)) (ra rb : ℕ) :
    Option (Option String) :=
  match la.find? (fun p => (frameNames lb).contains p.1) with
  | some p => some (some p.1)
  | none => if ra = rb then some none else none

/-- Compose the transforms of a chain from the entity upward, stopping
at the common ancestor (`some e`), or composing the full chain when the
ancestor is the terminal root (`none`).  The result maps entity-local
coordinates to ancestor coordinates. -/
def composeUpTo (l : List (String × Transform)) (anc : Option String) : Transform :=
  ((l.takeWhile (fun p => anc ≠ some p.1)).map Prod.snd).foldl
    (fun acc tr => tr.compose acc) Transform.idT

/-- Modelled from the spec: `resolvePose(entityId, targetFrameId, time)`
(spec section 4.2, steps 1-5, behind `getEntityPose` in `context.d.ts`,
whose body is absent from the repository).  "The result pose is the
first composition expressed in the inverse of the second"; a chain
failure or disjoint forests yield `Undefined` (`none` here — the
function is total, modelling the spec's "never a crash"); per the spec's
failure/edge policy, resolving a known entity relative to itself returns
the identity pose. -/
def PoseGraph.resolvePose (g : PoseGraph) (e : String) (target : FrameRef) (t : ℚ) :
    Option Transform :=
  if target = FrameRef.entity e ∧ g.known e = true then some Transform.idT
  else
    match g.chainFrom t (.entity e), g.chainFrom t target with
    | some (la, ra), some (lb, rb) =>
      match findCommonAncestor la lb ra rb with
      | some anc => some ((composeUpTo lb anc).invT.compose (composeUpTo la anc))
      | none => none
    | _, _ => none

/-- The spec's data-model requirement (section 3) that every orientation
be a unit quaternion, as a property of the whole graph. -/
def PoseGraph.unitOrientations (g : PoseGraph) : Prop :=
  ∀ (e : String) (pd : PoseDef), g.poseDef e = some pd →
    ∀ t : ℚ, (pd.orientation t).normSq = 1

/-- Coherence of a collected ancestor chain with the graph: each entry
is its entity's transform sampled at `t`, each entry's parent frame is
the entity heading the rest of the chain, and the last entry's frame is
the terminal root `r`. -/
inductive ChainOk (g : PoseGraph) (t : ℚ) : List (String × Transform) → ℕ → Prop
  | last (e : String) (pd : PoseDef) (r : ℕ)
      (hdef : g.poseDef e = some pd) (hfr : pd.frame = .root r) :
      ChainOk g t [(e, pd.transformAt t)] r
  | cons (e : String) (pd : PoseDef) (p : String)
      (tl : List (String × Transform)) (r : ℕ)
      (hdef : g.poseDef e = some pd) (hfr : pd.frame = .entity p)
      (htl : ChainOk g t tl r) (hhd : tl.head?.map Prod.fst = some p) :
      ChainOk g t ((e, pd.transformAt t) :: tl) r

/-- A successful ancestor walk produces a coherent chain headed by the
entity it started from. -/
theorem PoseGraph.walkChain_ok (g : PoseGraph) (t : ℚ) :
    ∀ (fuel : ℕ) (e : String) (l : List (String × Transform)) (r : ℕ),
      g.walkChain t e fuel = some (l, r) →
      ChainOk g t l r ∧ l.head?.map Prod.fst = some e := by
  intro fuel
  induction fuel with
  | zero =>
    intro e l r h
    simp [PoseGraph.walkChain] at h
  | succ fuel ih =>
    intro e l r h
    rw [PoseGraph.walkChain] at h
    split at h
    · exact Option.noConfusion h
    · rename_i pd hdef
      split at h
      · rename_i r' hfr
        simp only [Option.some.injEq, Prod.mk.injEq] at h
        obtain ⟨hl, hr⟩ := h
        subst hl; subst hr
        exact ⟨ChainOk.last e pd r' hdef hfr, by simp⟩
      · rename_i p hfr
        split at h
        · exact Option.noConfusion h
        · rename_i l' r' hrec
          simp only [Option.some.injEq, Prod.mk.injEq] at h
          obtain ⟨hl, hr⟩ := h
          subst hl; subst hr
          obtain ⟨hok, hhd⟩ := ih p l' r' hrec
          exact ⟨ChainOk.cons e pd p l' r' hdef hfr hok hhd, by simp⟩

/-- Two coherent chains headed by the same entity are the same chain,
terminating at the same root (the ancestor walk is deterministic). -/
theorem ChainOk.head_unique {g : PoseGraph} {t : ℚ} :
    ∀ {l r}, ChainOk g t l r → ∀ {l' r'}, ChainOk g t l' r' →
      l.head?.map Prod.fst = l'.head?.map Prod.fst → l = l' ∧ r = r' := by
  intro l r h1
  induction h1 with
  | last e pd r hdef hfr =>
    intro l' r' h2 hh
    cases h2 with
    | last e' pd' _ hdef' hfr' =>
      simp only [List.head?_cons, Option.map_some'] at hh
      obtain rfl : e = e' := Option.some.inj hh
      rw [hdef] at hdef'
      obtain rfl : pd = pd' := Option.some.inj hdef'
      rw [hfr] at hfr'
      injection hfr' with hr
      subst hr
      exact ⟨rfl, rfl⟩
    | cons e' pd' p' tl' _ hdef' hfr' htl' hhd' =>
      simp only [List.head?_cons, Option.map_some'] at hh
      obtain rfl : e = e' := Option.some.inj hh
      rw [hdef] at hdef'
      obtain rfl : pd = pd' := Option.some.inj hdef'
      rw [hfr] at hfr'
      exact FrameRef.noConfusion hfr'
  | cons e pd p tl r hdef hfr htl hhd ih =>
    intro l' r' h2 hh
    cases h2 with
    | last e' pd' _ hdef' hfr' =>
      simp only [List.head?_cons, Option.map_some'] at hh
      obtain rfl : e = e' := Option.some.inj hh
      rw [hdef] at hdef'
      obtain rfl : pd = pd' := Option.some.inj hdef'
      rw [hfr] at hfr'
      exact FrameRef.noConfusion hfr'
    | cons e' pd' p' tl' _ hdef' hfr' htl' hhd' =>
      simp only [List.head?_cons, Option.map_some'] at hh
      obtain rfl : e = e' := Option.some.inj hh
      rw [hdef] at hdef'
      obtain rfl : pd = pd' := Option.some.inj hdef'
      rw [hfr] at hfr'
      obtain rfl : p = p' := FrameRef.entity.inj hfr'
      have hheads : tl.head?.map Prod.fst = tl'.head?.map Prod.fst := by
        rw [hhd, hhd']
      obtain ⟨rfl, rfl⟩ := ih htl' hheads
      exact ⟨rfl, rfl⟩

/-- Any nonempty suffix of a coherent chain is a coherent chain with the
same terminal root. -/
theorem ChainOk.suffix {g : PoseGraph} {t : ℚ} :
    ∀ {l r}, ChainOk g t l r →
      ∀ (u b : List (String × Transform)), l = u ++ b → b ≠ [] →
        ChainOk g t b r := by
  intro l r h
  induction h with
  | last e pd r hdef hfr =>
    intro u b hl hb
    cases u with
    | nil =>
      simp only [List.nil_append] at hl
      rw [← hl]
      exact ChainOk.last e pd r hdef hfr
    | cons a u' =>
      simp only [List.cons_append, List.cons.injEq] at hl
      have : u' ++ b = [] := hl.2.symm
      rcases List.append_eq_nil.mp this with ⟨-, hb'⟩
      exact absurd hb' hb
  | cons e pd p tl r hdef hfr htl hhd ih =>
    intro u b hl hb
    cases u with
    | nil =>
      simp only [List.nil_append] at hl
      rw [← hl]
      exact ChainOk.cons e pd p tl r hdef hfr htl hhd
    | cons a u' =>
      simp only [List.cons_append, List.cons.injEq] at hl
      exact ih u' b hl.2 hb

/-- `find?` decomposes its list at the first hit: everything before the
found element fails the predicate. -/
theorem find?_decomp {α : Type} (p : α → Bool) :
    ∀ (l : List α) (x : α), l.find? p = some x →
      p x = true ∧ ∃ u v, l = u ++ x :: v ∧ ∀ a ∈ u, p a = false := by
  intro l
  induction l with
  | nil => intro x h; simp [List.find?] at h
  | cons a l ih =>
    intro x h
    cases hpa : p a with
    | true =>
      rw [List.find?_cons_of_pos _ hpa] at h
      obtain rfl : a = x := Option.some.inj h
      exact ⟨hpa, [], l, rfl, by intro b hb; simp at hb⟩
    | false =>
      rw [List.find?_cons_of_neg _ (by simp [hpa])] at h
      obtain ⟨hpx, u, v, hl, hu⟩ := ih x h
      refine ⟨hpx, a :: u, v, by rw [List.cons_append, hl], ?_⟩
      intro b hb
      rcases List.mem_cons.mp hb with rfl | hb'
      · exact hpa
      · exact hu b hb'

/-- In a graph whose orientations are unit quaternions, every transform
collected on a coherent chain has a unit orientation. -/
theorem ChainOk.unit_members {g : PoseGraph} {t : ℚ} (hu : g.unitOrientations) :
    ∀ {l r}, ChainOk g t l r → ∀ pr ∈ l, (Prod.snd pr).unitOri := by
  intro l r h
  induction h with
  | last e pd r hdef hfr =>
    intro pr hpr
    obtain rfl : pr = (e, pd.transformAt t) := List.mem_singleton.mp hpr
    exact hu e pd hdef t
  | cons e pd p tl r hdef hfr htl hhd ih =>
    intro pr hpr
    rcases List.mem_cons.mp hpr with rfl | hpr'
    · exact hu e pd hdef t
    · exact ih pr hpr'

theorem foldl_compose_unitOri :
    ∀ (ts : List Transform) (acc : Transform), acc.unitOri →
      (∀ tr ∈ ts, tr.unitOri) →
      (ts.foldl (fun a tr => tr.compose a) acc).unitOri := by
  intro ts
  induction ts with
  | nil => intro acc hacc _; simpa using hacc
  | cons tr ts ih =>
    intro acc hacc hts
    simp only [List.foldl_cons]
    exact ih (tr.compose acc)
      (Transform.compose_unitOri (hts tr (List.mem_cons_self _ _)) hacc)
      (fun tr' htr' => hts tr' (List.mem_cons_of_mem _ htr'))

theorem composeUpTo_unitOri {l : List (String × Transform)} (anc : Option String)
    (h : ∀ pr ∈ l, (Prod.snd pr).unitOri) : (composeUpTo l anc).unitOri := by
  unfold composeUpTo
  apply foldl_compose_unitOri _ _ Transform.idT_unitOri
  intro tr htr
  obtain ⟨pr, hpr, rfl⟩ := List.mem_map.mp htr
  exact h pr (List.takeWhile_subset _ hpr)

theorem findCommonAncestor_eq_some {la lb : List (String × Transform)} {ra rb : ℕ}
    {x : String × Transform}
    (hx : la.find? (fun pr => (frameNames lb).contains pr.1) = some x) :
    findCommonAncestor la lb ra rb = some (some x.1) := by
  unfold findCommonAncestor
  rw [hx]

theorem findCommonAncestor_eq_none {la lb : List (String × Transform)} {ra rb : ℕ}
    (hx : la.find? (fun pr => (frameNames lb).contains pr.1) = none) :
    findCommonAncestor la lb ra rb = if ra = rb then some none else none := by
  unfold findCommonAncestor
  rw [hx]

/-- The key symmetry fact behind the pose round trip: on coherent
chains, the first entity of `la` occurring in `lb` and the first entity
of `lb` occurring in `la` are the same entity (the lowest common
ancestor does not depend on the search direction). -/
theorem first_common_eq {g : PoseGraph} {t : ℚ}
    {la lb : List (String × Transform)} {ra rb : ℕ}
    (ha : ChainOk g t la ra) (hb : ChainOk g t lb rb)
    {x y : String × Transform}
    (hx : la.find? (fun pr => (frameNames lb).contains pr.1) = some x)
    (hy : lb.find? (fun pr => (frameNames la).contains pr.1) = some y) :
    x.1 = y.1 := by
  obtain ⟨hpx, u, v, hla, hu⟩ := find?_decomp _ la x hx
  obtain ⟨hpy, u', v', hlb, hu'⟩ := find?_decomp _ lb y hy
  have hx_la : x ∈ la := by
    rw [hla]; exact List.mem_append_right u (List.mem_cons_self _ _)
  have hy_lb : y ∈ lb := by
    rw [hlb]; exact List.mem_append_right u' (List.mem_cons_self _ _)
  have hx1_lb : x.1 ∈ frameNames lb := by simpa using hpx
  have hy1_la : y.1 ∈ frameNames la := by simpa using hpy
  -- the occurrence of x.1 in lb lies at or below y
  obtain ⟨xb, hxb_mem, hxb1⟩ := List.mem_map.mp hx1_lb
  have hxb_tail : xb ∈ y :: v' := by
    rw [hlb] at hxb_mem
    rcases List.mem_append.mp hxb_mem with hin | hin
    · exfalso
      have hfalse := hu' xb hin
      have : ¬ xb.1 ∈ frameNames la := by simpa using hfalse
      exact this (by rw [hxb1]; exact List.mem_map.mpr ⟨x, hx_la, rfl⟩)
    · exact hin
  -- the occurrence of y.1 in la lies at or below x
  obtain ⟨ya, hya_mem, hya1⟩ := List.mem_map.mp hy1_la
  have hya_tail : ya ∈ x :: v := by
    rw [hla] at hya_mem
    rcases List.mem_append.mp hya_mem with hin | hin
    · exfalso
      have hfalse := hu ya hin
      have : ¬ ya.1 ∈ frameNames lb := by simpa using hfalse
      exact this (by rw [hya1]; exact List.mem_map.mpr ⟨y, hy_lb, rfl⟩)
    · exact hin
  -- coherent sub-chains
  have hxv : ChainOk g t (x :: v) ra := ha.suffix u (x :: v) hla (by simp)
  have hyv : ChainOk g t (y :: v') rb := hb.suffix u' (y :: v') hlb (by simp)
  -- split y :: v' at xb
  obtain ⟨w1, w2, hw⟩ := List.append_of_mem hxb_tail
  have hxbw : ChainOk g t (xb :: w2) rb :=
    hyv.suffix w1 (xb :: w2) hw (by simp)
  have hxx : x :: v = xb :: w2 ∧ ra = rb :=
    ChainOk.head_unique hxv hxbw (by simp [hxb1])
  -- split x :: v at ya
  obtain ⟨w3, w4, hw'⟩ := List.append_of_mem hya_tail
  have hyaw : ChainOk g t (ya :: w4) ra :=
    hxv.suffix w3 (ya :: w4) hw' (by simp)
  have hyy : y :: v' = ya :: w4 ∧ rb = ra :=
    ChainOk.head_unique hyv hyaw (by simp [hya1])
  -- length bookkeeping forces the splits to be trivial
  have hlen1 : (x :: v).length = w2.length + 1 := by
    rw [hxx.1]; simp
  have hlen2 : (y :: v').length = w1.length + w2.length + 1 := by
    rw [hw]; simp [List.length_append]; omega
  have hlen3 : (y :: v').length = w4.length + 1 := by
    rw [hyy.1]; simp
  have hlen4 : (x :: v).length = w3.length + w4.length + 1 := by
    rw [hw']; simp [List.length_append]; omega
  have hw3 : w3.length = 0 := by omega
  have hw3nil : w3 = [] := List.eq_nil_of_length_eq_zero hw3
  rw [hw3nil, List.nil_append] at hw'
  have : x = ya := (List.cons.injEq _ _ _ _).mp hw' |>.1
  rw [this, hya1]

/-- On coherent chains the common-ancestor search is symmetric in its
two chains. -/
theorem findCommonAncestor_symm {g : PoseGraph} {t : ℚ}
    {la lb : List (String × Transform)} {ra rb : ℕ}
    (ha : ChainOk g t la ra) (hb : ChainOk g t lb rb) :
    findCommonAncestor lb la rb ra = findCommonAncestor la lb ra rb := by
  cases hx : la.find? (fun pr => (frameNames lb).contains pr.1) with
  | some x =>
    cases hy : lb.find? (fun pr => (frameNames la).contains pr.1) with
    | some y =>
      rw [findCommonAncestor_eq_some hx, findCommonAncestor_eq_some hy,
        first_common_eq ha hb hx hy]
    | none =>
      exfalso
      obtain ⟨hpx, u, v, hla, hu⟩ := find?_decomp _ la x hx
      have hx_la : x ∈ la := by
        rw [hla]; exact List.mem_append_right u (List.mem_cons_self _ _)
      have hx1_lb : x.1 ∈ frameNames lb := by simpa using hpx
      obtain ⟨xb, hxb_mem, hxb1⟩ := List.mem_map.mp hx1_lb
      have hfail := List.find?_eq_none.mp hy xb hxb_mem
      apply hfail
      have : xb.1 ∈ frameNames la := by
        rw [hxb1]; exact List.mem_map.mpr ⟨x, hx_la, rfl⟩
      simpa using this
  | none =>
    cases hy : lb.find? (fun pr => (frameNames la).contains pr.1) with
    | some y =>
      exfalso
      obtain ⟨hpy, u', v', hlb, hu'⟩ := find?_decomp _ lb y hy
      have hy_lb : y ∈ lb := by
        rw [hlb]; exact List.mem_append_right u' (List.mem_cons_self _ _)
      have hy1_la : y.1 ∈ frameNames la := by simpa using hpy
      obtain ⟨ya, hya_mem, hya1⟩ := List.mem_map.mp hy1_la
      have hfail := List.find?_eq_none.mp hx ya hya_mem
      apply hfail
      have : ya.1 ∈ frameNames lb := by
        rw [hya1]; exact List.mem_map.mpr ⟨y, hy_lb, rfl⟩
      simpa using this
    | none =>
      rw [findCommonAncestor_eq_none hx, findCommonAncestor_eq_none hy]
      by_cases hr : ra = rb
      · subst hr; rfl
      · rw [if_neg hr, if_neg (fun h => hr h.symm)]

theorem PoseGraph.known_of_poseDef {g : PoseGraph} {e : String} {pd : PoseDef}
    (h : g.poseDef e = some pd) : g.known e = true := by
  unfold PoseGraph.poseDef at h
  unfold PoseGraph.known
  cases hde : g.defs e with
  | none => rw [hde] at h; simp at h
  | some o => rfl

theorem PoseGraph.poseDef_eq_none {g : PoseGraph} {e : String}
    (h : g.known e = false) : g.poseDef e = none := by
  unfold PoseGraph.known at h
  unfold PoseGraph.poseDef
  cases hde : g.defs e with
  | none => rfl
  | some o => rw [hde] at h; simp at h

theorem PoseGraph.walkChain_unknown (g : PoseGraph) (t : ℚ) (e : String)
    (h : g.poseDef e = none) : ∀ fuel : ℕ, g.walkChain t e fuel = none := by
  intro fuel
  cases fuel with
  | zero => rfl
  | succ fuel => rw [PoseGraph.walkChain, h]

theorem PoseGraph.walkChain_known {g : PoseGraph} {t : ℚ} {e : String} {fuel : ℕ}
    {lr : List (String × Transform) × ℕ}
    (h : g.walkChain t e fuel = some lr) : g.known e = true := by
  cases fuel with
  | zero => exact Option.noConfusion h
  | succ fuel =>
    rw [PoseGraph.walkChain] at h
    cases hdef : g.poseDef e with
    | none => rw [hdef] at h; exact Option.noConfusion h
    | some pd => exact PoseGraph.known_of_poseDef hdef

/-- Claim C3: for every known entity `A` and every time `t`, resolving
the pose of `A` relative to `A` itself (`getEntityPose` with the entity
as its own reference frame) returns the identity pose (zero position,
identity orientation). -/
theorem resolvePose_self_identity (g : PoseGraph) (A : String) (t : ℚ)
    (h : g.known A = true) :
    g.resolvePose A (.entity A) t = some Transform.idT := by
  rw [PoseGraph.resolvePose, if_pos ⟨rfl, h⟩]

/-- Claim C4: for all entities `A`, `B` and every time `t`, if
`resolvePose(A, B, t)` yields a defined pose, then composing it (by the
spec's composition rule) with `resolvePose(B, A, t)` yields the identity
pose; exact rational arithmetic realizes "within numeric tolerance" as
exact equality.  The hypothesis `unitOrientations` is the spec's own
data-model requirement that orientations be unit quaternions. -/
theorem resolvePose_roundTrip (g : PoseGraph) (A B : String) (t : ℚ)
    (hu : g.unitOrientations) (p : Transform)
    (hp : g.resolvePose A (.entity B) t = some p) :
    ∃ q : Transform, g.resolvePose B (.entity A) t = some q ∧
      p.compose q = Transform.idT := by
  by_cases hAB : FrameRef.entity B = FrameRef.entity A ∧ g.known A = true
  · obtain ⟨hBA, hkA⟩ := hAB
    obtain rfl : B = A := FrameRef.entity.inj hBA
    rw [PoseGraph.resolvePose, if_pos ⟨rfl, hkA⟩] at hp
    obtain rfl : Transform.idT = p := Option.some.inj hp
    refine ⟨Transform.idT, ?_, ?_⟩
    · rw [PoseGraph.resolvePose, if_pos ⟨rfl, hkA⟩]
    · rw [Transform.compose_idT_left]
  · rw [PoseGraph.resolvePose, if_neg hAB] at hp
    cases hca : g.chainFrom t (.entity A) with
    | none => rw [hca] at hp; exact Option.noConfusion hp
    | some lra =>
      obtain ⟨la, ra⟩ := lra
      cases hcb : g.chainFrom t (.entity B) with
      | none => rw [hca, hcb] at hp; exact Option.noConfusion hp
      | some lrb =>
        obtain ⟨lb, rb⟩ := lrb
        rw [hca, hcb] at hp
        dsimp only at hp
        cases hanc : findCommonAncestor la lb ra rb with
        | none => rw [hanc] at hp; exact Option.noConfusion hp
        | some anc =>
          rw [hanc] at hp
          have hpv : p = (composeUpTo lb anc).invT.compose (composeUpTo la anc) :=
            (Option.some.inj hp).symm
          subst hpv
          have hwa : g.walkChain t A maxAncestorDepth = some (la, ra) := hca
          have hwb : g.walkChain t B maxAncestorDepth = some (lb, rb) := hcb
          have hoka := (PoseGraph.walkChain_ok g t maxAncestorDepth A la ra hwa).1
          have hokb := (PoseGraph.walkChain_ok g t maxAncestorDepth B lb rb hwb).1
          have hkA : g.known A = true := PoseGraph.walkChain_known hwa
          have hne : ¬(FrameRef.entity A = FrameRef.entity B ∧ g.known B = true) := by
            intro hc
            exact hAB ⟨hc.1.symm, hkA⟩
          refine ⟨(composeUpTo la anc).invT.compose (composeUpTo lb anc), ?_, ?_⟩
          · rw [PoseGraph.resolvePose, if_neg hne]
            have hwa' : g.chainFrom t (.entity A) = some (la, ra) := hca
            have hwb' : g.chainFrom t (.entity B) = some (lb, rb) := hcb
            rw [hwb', hwa']
            dsimp only
            rw [findCommonAncestor_symm hoka hokb, hanc]
          · have hua : (composeUpTo la anc).unitOri :=
              composeUpTo_unitOri anc (ChainOk.unit_members hu hoka)
            have hub : (composeUpTo lb anc).unitOri :=
              composeUpTo_unitOri anc (ChainOk.unit_members hu hokb)
            exact Transform.compose_roundTrip _ _ hua hub

/-- Claim C5: a pose query whose entity id is unknown, or whose ancestor
walk fails (cycle / exceeded depth bound), or whose two chains lie in
disjoint frame forests (different roots, no common entity), returns the
explicit absent pose `none`; the embedding is a total function, which
models the spec's "never a crash". -/
theorem resolvePose_undefined_cases (g : PoseGraph) (e : String) (target : FrameRef)
    (t : ℚ)
    (h : g.known e = false
      ∨ (target ≠ FrameRef.entity e ∧ g.chainFrom t (.entity e) = none)
      ∨ (target ≠ FrameRef.entity e ∧
          ∃ la ra lb rb, g.chainFrom t (.entity e) = some (la, ra) ∧
            g.chainFrom t target = some (lb, rb) ∧ ra ≠ rb ∧
            ∀ p ∈ la, ∀ q ∈ lb, Prod.fst p ≠ Prod.fst q)) :
    g.resolvePose e target t = none := by
  rcases h with hunk | ⟨hne, hcn⟩ | ⟨hne, la, ra, lb, rb, hca, hcb, hrr, hdisj⟩
  · have hpd : g.poseDef e = none := PoseGraph.poseDef_eq_none hunk
    have hwalk : g.chainFrom t (.entity e) = none :=
      PoseGraph.walkChain_unknown g t e hpd maxAncestorDepth
    rw [PoseGraph.resolvePose,
      if_neg (by intro hc; rw [hunk] at hc; simp at hc), hwalk]
  · rw [PoseGraph.resolvePose, if_neg (fun hc => hne hc.1), hcn]
  · rw [PoseGraph.resolvePose, if_neg (fun hc => hne hc.1), hca, hcb]
    dsimp only
    have hfind : la.find? (fun pr => (frameNames lb).contains pr.1) = none := by
      rw [List.find?_eq_none]
      intro p hp hpred
      have hmem : p.1 ∈ frameNames lb := by simpa using hpred
      obtain ⟨q, hq, hq1⟩ := List.mem_map.mp hmem
      exact hdisj p hp q hq hq1.symm
    rw [findCommonAncestor_eq_none hfind, if_neg hrr]

/-- Concrete pose definitions for the witness graph: `A` and `B` sit
under the fixed root frame `0`, `C` under a different root `1`. -/
def pdA : PoseDef := ⟨.root 0, fun _ => ⟨1, 2, 3⟩, fun _ => ⟨0, 1, 0, 0⟩⟩

def pdB : PoseDef := ⟨.root 0, fun _ => ⟨4, 5, 6⟩, fun _ => ⟨1, 0, 0, 0⟩⟩

def pdC : PoseDef := ⟨.root 1, fun _ => Vec3.zero, fun _ => Quat.one⟩

/-- The witness graph. -/
def gEx : PoseGraph :=
  ⟨fun id =>
    if id = "A" then some (some pdA)
    else if id = "B" then some (some pdB)
    else if id = "C" then some (some pdC)
    else none⟩

theorem gEx_poseDef_A : gEx.poseDef "A" = some pdA := rfl

theorem gEx_poseDef_B : gEx.poseDef "B" = some pdB := rfl

theorem gEx_poseDef_C : gEx.poseDef "C" = some pdC := rfl

theorem gEx_unitOrientations : gEx.unitOrientations := by
  intro e pd h t
  simp only [gEx, PoseGraph.poseDef] at h
  split at h
  · obtain rfl : pdA = pd := by simpa using h
    norm_num [pdA, Quat.normSq]
  · split at h
    · obtain rfl : pdB = pd := by simpa using h
      norm_num [pdB, Quat.normSq]
    · split at h
      · obtain rfl : pdC = pd := by simpa using h
        norm_num [pdC, Quat.one, Quat.normSq]
      · simp at h

theorem gEx_walk_A : gEx.walkChain 0 "A" maxAncestorDepth =
    some ([("A", pdA.transformAt 0)], 0) := by
  rw [show maxAncestorDepth = Nat.succ 63 from rfl, PoseGraph.walkChain, gEx_poseDef_A]
  rfl

theorem gEx_walk_B : gEx.walkChain 0 "B" maxAncestorDepth =
    some ([("B", pdB.transformAt 0)], 0) := by
  rw [show maxAncestorDepth = Nat.succ 63 from rfl, PoseGraph.walkChain, gEx_poseDef_B]
  rfl

theorem gEx_walk_C : gEx.walkChain 0 "C" maxAncestorDepth =
    some ([("C", pdC.transformAt 0)], 1) := by
  rw [show maxAncestorDepth = Nat.succ 63 from rfl, PoseGraph.walkChain, gEx_poseDef_C]
  rfl

/-- Claim C3 witness: resolving "A" against itself on the witness graph. -/
theorem resolvePose_self_identity_witness :
    gEx.resolvePose "A" (.entity "A") 0 = some Transform.idT :=
  resolvePose_self_identity gEx "A" 0 (by decide)

/-- The pose of "A" in frame "B" on the witness graph, in the form the
resolution algorithm produces. -/
def pW : Transform :=
  (composeUpTo [("B", pdB.transformAt 0)] none).invT.compose
    (composeUpTo [("A", pdA.transformAt 0)] none)

theorem gEx_resolve_A_B : gEx.resolvePose "A" (.entity "B") 0 = some pW := by
  rw [PoseGraph.resolvePose, if_neg (by decide)]
  have hca : gEx.chainFrom 0 (.entity "A") = some ([("A", pdA.transformAt 0)], 0) :=
    gEx_walk_A
  have hcb : gEx.chainFrom 0 (.entity "B") = some ([("B", pdB.transformAt 0)], 0) :=
    gEx_walk_B
  rw [hca, hcb]
  rfl

/-- Claim C4 witness: the round trip evaluated between the concrete
entities "A" and "B" of the witness graph. -/
theorem resolvePose_roundTrip_witness :
    ∃ q : Transform, gEx.resolvePose "B" (.entity "A") 0 = some q ∧
      pW.compose q = Transform.idT :=
  resolvePose_roundTrip gEx "A" "B" 0 gEx_unitOrientations pW gEx_resolve_A_B

/-- Claim C5 witness: "A" (under root 0) and "C" (under root 1) lie in
disjoint frame forests, so the query returns the absent pose. -/
theorem resolvePose_undefined_cases_witness :
    gEx.resolvePose "A" (.entity "C") 0 = none :=
  resolvePose_undefined_cases gEx "A" (.entity "C") 0
    (Or.inr (Or.inr ⟨by decide,
      [("A", pdA.transformAt 0)], 0, [("C", pdC.transformAt 0)], 1,
      gEx_walk_A, gEx_walk_C, by decide, by decide⟩))

/-- The notification kinds of a ContextService frame cycle. -/
inductive ContextNotification where
  | originChange
  | update
  | render
  | postRender
deriving DecidableEq

/-- Modelled from the spec: origin-change detection and the notification
sequence of one frame cycle (spec section 4.3, steps 3-4).  The bodies
of `_checkOriginChange` and `_update` behind `originChangeEvent`,
`updateEvent`, `renderEvent` and `postRenderEvent` in `context.d.ts` are
absent from the repository.  `prev` is `_previousOriginReferenceFrame`
(`none` before the first cycle), `curr` the reference frame backing
`origin` in this cycle; when they differ the origin-change notification
is raised before the update notification, then update, render and
post-render fire in order.  Returns the cycle's ordered notifications
and the new previous-frame value. -/
def runFrameCycle (prev : Option FrameRef) (curr : FrameRef) :
    List ContextNotification × Option FrameRef :=
  ((if some curr = prev then [] else [.originChange]) ++
    [.update, .render, .postRender], some curr)

/-- Claim C6: in every frame cycle in which the frame backing `origin`
differs from the prior cycle's, the origin-change notification fires
exactly once and before the update notification of that cycle; in
cycles where the backing frame is unchanged it does not fire. -/
theorem originChange_notification_order (prev : Option FrameRef) (curr : FrameRef) :
    (runFrameCycle prev curr).1 =
      (if some curr = prev then [.update, .render, .postRender]
       else [.originChange, .update, .render, .postRender]) ∧
    ((runFrameCycle prev curr).1.count .originChange =
      if some curr = prev then 0 else 1) ∧
    (some curr ≠ prev →
      (runFrameCycle prev curr).1.indexOf .originChange <
        (runFrameCycle prev curr).1.indexOf .update) := by
  by_cases h : some curr = prev
  · refine ⟨?_, ?_, fun hc => absurd h hc⟩
    · simp [runFrameCycle, h]
    · simp only [runFrameCycle, if_pos h]
      decide
  · refine ⟨?_, ?_, fun _ => ?_⟩
    · simp [runFrameCycle, h]
    · simp only [runFrameCycle, if_neg h]
      decide
    · simp only [runFrameCycle, if_neg h]
      decide

/-- Claim C6 witness: the first cycle after construction with origin
backed by root 0 fires the origin change before the update. -/
theorem originChange_notification_order_witness :
    (runFrameCycle none (.root 0)).1.indexOf .originChange <
      (runFrameCycle none (.root 0)).1.indexOf .update :=
  (originChange_notification_order none (.root 0)).2.2 (by decide)

/-- A serialized wire pose record (spec section 6: position, orientation
and reference-frame id per entity). -/
structure SerializedEntityState where
  position : Vec3
  orientation : Quat
  referenceFrame : FrameRef
deriving DecidableEq

/-- Modelled from the spec: per-session snapshot filtering
(`_sendUpdateForSession`, `_includedFrames`, `_excludedFrames` of
`ContextServiceProvider`, whose bodies are absent from the repository).
Spec section 4.4: per session, "explicit subscription beats exclusion
beats default visibility", and anything the session has no
capability/permission to see is dropped (the permission check is the
external `canSee` collaborator). -/
def sessionFrameEntities (auth : String → Option SerializedEntityState)
    (included excluded canSee : String → Bool) (id : String) :
    Option SerializedEntityState :=
  if canSee id = false then none
  else if included id = true then auth id
  else if excluded id = true then none
  else auth id

def authEx : String → Option SerializedEntityState :=
  fun id => if id = "X" ∨ id = "Y" then some ⟨Vec3.zero, Quat.one, .root 0⟩ else none

def includedEx : String → Bool := fun id => id == "X" || id == "Y"

def includedXEx : String → Bool := fun id => id == "X"

def excludedEx : String → Bool := fun id => id == "Y"

def canSeeEx : String → Bool := fun id => !(id == "X")

def canSeeAllEx : String → Bool := fun _ => true

/-- Claim C7, counterexample to the claim as stated: for a session whose
include-set contains X and Y, whose exclude-set contains Y, and whose
permission collaborator denies X, the published snapshot lacks X even
though X is resolvable (permission drops it) and contains Y (explicit
inclusion overrides exclusion, spec section 4.4). -/
theorem sessionFilter_counterexample :
    includedEx "X" = true ∧ excludedEx "Y" = true ∧ "X" ≠ "Y" ∧
    (authEx "X").isSome = true ∧
    sessionFrameEntities authEx includedEx excludedEx canSeeEx "X" = none ∧
    (sessionFrameEntities authEx includedEx excludedEx canSeeEx "Y").isSome = true := by
  decide

/-- Claim C7 (amended): for a session whose include-set contains `X`,
whose exclude-set contains `Y`, where `Y` is not also in the include-set
(explicit inclusion overrides exclusion) and the permission collaborator
lets the session see `X`: the per-session snapshot maps `X` to the
authoritative entry (so contains `X` whenever `X` is resolvable) and
never contains `Y`, regardless of the authoritative snapshot. -/
theorem sessionFilter_include_exclude (auth : String → Option SerializedEntityState)
    (included excluded canSee : String → Bool) (X Y : String)
    (hX : included X = true) (hseeX : canSee X = true)
    (hY : excluded Y = true) (hYninc : included Y = false) :
    sessionFrameEntities auth included excluded canSee X = auth X ∧
    sessionFrameEntities auth included excluded canSee Y = none := by
  constructor
  · unfold sessionFrameEntities
    rw [if_neg (by simp [hseeX]), if_pos hX]
  · unfold sessionFrameEntities
    by_cases hsy : canSee Y = false
    · rw [if_pos hsy]
    · rw [if_neg hsy, if_neg (by simp [hYninc]), if_pos hY]

/-- Claim C7 witness: include-set {X}, exclude-set {Y}, permissive
collaborator, on the concrete two-entity authoritative snapshot. -/
theorem sessionFilter_include_exclude_witness :
    sessionFrameEntities authEx includedXEx excludedEx canSeeAllEx "X" = authEx "X" ∧
    sessionFrameEntities authEx includedXEx excludedEx canSeeAllEx "Y" = none :=
  sessionFilter_include_exclude authEx includedXEx excludedEx canSeeAllEx "X" "Y"
    (by decide) (by decide) (by decide) (by decide)

/-- A viewport rectangle (stands in for the source's CanvasViewport). -/
structure Viewport where
  width : ℚ
  height : ℚ
deriving DecidableEq

/-- Modelled from the spec: the raw wire form of an ingested
`ContextFrameState` (spec section 3, FrameSnapshot: a timestamp, a
mapping from entity id to serialized pose records, plus viewport and
subview geometry); in raw form every required field may be missing. -/
structure RawFrameState where
  timestamp : Option ℚ
  viewport : Option Viewport
  subviews : Option (List Viewport)
  entities : Option (List (String × SerializedEntityState))

/-- A structurally valid frame snapshot: all required fields present. -/
structure ValidFrameState where
  timestamp : ℚ
  viewport : Viewport
  subviews : List Viewport
  entities : List (String × SerializedEntityState)

/-- Structural validation of a raw snapshot. -/
def validateFrameState (fs : RawFrameState) : Option ValidFrameState :=
  match fs.timestamp, fs.viewport, fs.subviews, fs.entities with
  | some ts, some vp, some svs, some es => some ⟨ts, vp, svs, es⟩
  | _, _, _, _ => none

inductive ContextFault where
  | malformedSnapshot
deriving DecidableEq

/-- Insert or update an entity's pose definition from a serialized
record (spec section 4.2, `upsertEntity`). -/
def PoseGraph.upsertEntity (g : PoseGraph) (e : String)
    (st : SerializedEntityState) : PoseGraph :=
  ⟨fun id =>
    if id = e then
      some (some ⟨st.referenceFrame, fun _ => st.position, fun _ => st.orientation⟩)
    else g.defs id⟩

/-- The state owned by `ContextService`: its Clock and its PoseGraph. -/
structure ContextState where
  clock : Clock
  graph : PoseGraph

/-- The canonical entity ids (spec section 3), always present. -/
def canonicalEntityIds : List String :=
  ["origin", "stage", "stageEUS", "stageENU", "floor", "user", "view"]

def initialPoseGraph : PoseGraph :=
  ⟨fun id => if canonicalEntityIds.contains id then some none else none⟩

/-- Modelled from the spec: the `ContextService` state on construction,
before any caller modifies it: canonical entities known with undefined
pose, sentinel clock, and the default `maxDeltaTime` cap stated by the
`maxDeltaTime` doc comment in `context.d.ts`. -/
def initialContextState : ContextState :=
  ⟨Clock.init defaultMaxDeltaTime, initialPoseGraph⟩

/-- Modelled from the spec: the ingest step (spec section 4.3, step 1):
advance the Clock on the snapshot timestamp, then upsert every entry of
the snapshot's entity map into the PoseGraph. -/
def ingestFrameState (st : ContextState) (v : ValidFrameState) : ContextState :=
  { clock := st.clock.advance v.timestamp,
    graph := v.entities.foldl (fun g pr => g.upsertEntity pr.1 pr.2) st.graph }

/-- Modelled from the spec: `submitFrameState` (declared in
`context.d.ts` with no body; spec section 7, *MalformedSnapshot*:
"Fatal to that ingest only — the previous graph state is retained
unchanged, and the fault is surfaced to the caller of
`submitFrameState`").  Returns the next state and the surfaced fault. -/
def submitFrameState (st : ContextState) (fs : RawFrameState) :
    ContextState × Option ContextFault :=
  match validateFrameState fs with
  | none => (st, some .malformedSnapshot)
  | some v => (ingestFrameState st v, none)

/-- Claim C9: for every structurally invalid frame snapshot (some
required field missing), the ingest fails atomically: the entire
previous state (graph, clock, entities) is returned unchanged, and the
MalformedSnapshot fault is surfaced to the caller. -/
theorem submitFrameState_malformed_atomic (st : ContextState) (fs : RawFrameState)
    (h : fs.timestamp = none ∨ fs.viewport = none ∨ fs.subviews = none ∨
      fs.entities = none) :
    (submitFrameState st fs).1 = st ∧
    (submitFrameState st fs).2 = some ContextFault.malformedSnapshot := by
  have hv : validateFrameState fs = none := by
    unfold validateFrameState
    rcases h with h | h | h | h
    · rw [h]
    · rw [h]; cases fs.timestamp <;> rfl
    · rw [h]; cases fs.timestamp <;> cases fs.viewport <;> rfl
    · rw [h]; cases fs.timestamp <;> cases fs.viewport <;> cases fs.subviews <;> rfl
  unfold submitFrameState
  rw [hv]
  exact ⟨rfl, rfl⟩

/-- A raw snapshot missing its required viewport field. -/
def rawEx : RawFrameState := ⟨some 0, none, some [], some []⟩

/-- Claim C9 witness: submitting the viewport-less snapshot to the
freshly constructed service retains the state and surfaces the fault. -/
theorem submitFrameState_malformed_atomic_witness :
    (submitFrameState initialContextState rawEx).1 = initialContextState ∧
    (submitFrameState initialContextState rawEx).2 =
      some ContextFault.malformedSnapshot :=
  submitFrameState_malformed_atomic initialContextState rawEx (Or.inr (Or.inl rfl))

/-- Claim C10: on construction of the ContextService state, before any
caller modifies it, the `maxDeltaTime` field capping `deltaTime` equals
one third of a second (1000/3 ms, about 333.3 ms). -/
theorem default_maxDeltaTime_value :
    initialContextState.clock.maxDeltaTime = 1000 / 3 ∧
    defaultMaxDeltaTime = 1000 / 3 :=
  ⟨rfl, rfl⟩

/-- A session's requested geolocation options (spec section 3: "desired
accuracy / power trade-off").  `accuracy` is the requested accuracy
radius in meters; a smaller radius is the more capable request. -/
structure GeolocationOptions where
  accuracy : ℚ
deriving DecidableEq

/-- Most-capable-wins merge of two optional requests, per field: the
highest requested accuracy (smallest radius) wins; an absent request
defers to the other. -/
def mergeGeoOptions (a b : Option GeolocationOptions) : Option GeolocationOptions :=
  match a, b with
  | none, b => b
  | some a, none => some a
  | some a, some b => some ⟨min a.accuracy b.accuracy⟩

/-- The merge of every currently-registered session's request; `none`
when no session requests geolocation. -/
def mergedGeolocationOptions (reqs : List (Option GeolocationOptions)) :
    Option GeolocationOptions :=
  reqs.foldl mergeGeoOptions none

/-- Modelled from the spec: the geolocation-aggregation state of
`ContextServiceProvider` (the bodies behind `desiredGeolocationOptions`,
`sessionGeolocationOptions`, `_setGeolocationOptions` and
`_updateDesiredGeolocationOptions` in `context.d.ts` are absent from the
repository).  `lastForwarded` is the last value forwarded to the
device/location collaborator (`none` both initially and after a
forwarded withdrawal). -/
structure GeoProviderState where
  sessionGeolocationOptions : List (String × Option GeolocationOptions)
  desiredGeolocationOptions : Option GeolocationOptions
  lastForwarded : Option GeolocationOptions
deriving DecidableEq

def GeoProviderState.init : GeoProviderState := ⟨[], none, none⟩

/-- Modelled from the spec (section 4.4): recompute
`desiredGeolocationOptions` as the most-capable-wins merge of all
registered sessions' requests, and forward it to the device/location
collaborator only when it differs from the last forwarded value.  The
second component is the list of values forwarded by this call (empty or
a single message). -/
def updateDesiredGeolocationOptions (s : GeoProviderState) :
    GeoProviderState × List (Option GeolocationOptions) :=
  let merged := mergedGeolocationOptions (s.sessionGeolocationOptions.map Prod.snd)
  if merged = s.lastForwarded then
    ({ s with desiredGeolocationOptions := merged }, [])
  else
    ({ s with desiredGeolocationOptions := merged, lastForwarded := merged }, [merged])

/-- Modelled from the spec: `_setGeolocationOptions(session, options?)`:
record the session's request (upsert into the registry) and recompute. -/
def setGeolocationOptions (s : GeoProviderState) (sid : String)
    (opts : Option GeolocationOptions) :
    GeoProviderState × List (Option GeolocationOptions) :=
  let sessions :=
    if (s.sessionGeolocationOptions.map Prod.fst).contains sid then
      s.sessionGeolocationOptions.map (fun pr => if pr.1 = sid then (sid, opts) else pr)
    else s.sessionGeolocationOptions ++ [(sid, opts)]
  updateDesiredGeolocationOptions { s with sessionGeolocationOptions := sessions }

/-- Modelled from the spec: a session withdrawing (closing / leaving the
registry) removes its request and triggers a recompute. -/
def removeGeoSession (s : GeoProviderState) (sid : String) :
    GeoProviderState × List (Option GeolocationOptions) :=
  updateDesiredGeolocationOptions
    { s with sessionGeolocationOptions :=
        s.sessionGeolocationOptions.filter (fun pr => pr.1 != sid) }

def geoS1 : GeoProviderState × List (Option GeolocationOptions) :=
  setGeolocationOptions GeoProviderState.init "s1" (some ⟨10⟩)

def geoS2 : GeoProviderState × List (Option GeolocationOptions) :=
  setGeolocationOptions geoS1.1 "s2" (some ⟨1⟩)

def geoS3 : GeoProviderState × List (Option GeolocationOptions) :=
  removeGeoSession geoS2.1 "s1"

def geoS4 : GeoProviderState × List (Option GeolocationOptions) :=
  removeGeoSession geoS3.1 "s2"

def geoS5 : GeoProviderState × List (Option GeolocationOptions) :=
  updateDesiredGeolocationOptions geoS4.1

/-- Claim C8: `desiredGeolocationOptions` equals the per-field
most-capable-wins merge of all registered sessions' requests (10m and 1m
merge to 1m); a recompute forwards the merged value downstream exactly
when it differs from the last forwarded value; and when the last
requesting session withdraws, the aggregate reverts to "no geolocation
requested" and the withdrawal is forwarded exactly once (the concrete
two-session scenario: request 10m, request 1m, withdraw both, then one
further recompute forwards nothing). -/
theorem geolocation_aggregation :
    (∀ s : GeoProviderState,
      (updateDesiredGeolocationOptions s).1.desiredGeolocationOptions =
        mergedGeolocationOptions (s.sessionGeolocationOptions.map Prod.snd)) ∧
    (∀ s : GeoProviderState,
      (updateDesiredGeolocationOptions s).2 =
        (if mergedGeolocationOptions (s.sessionGeolocationOptions.map Prod.snd) =
            s.lastForwarded then []
         else [mergedGeolocationOptions (s.sessionGeolocationOptions.map Prod.snd)])) ∧
    mergeGeoOptions (some ⟨10⟩) (some ⟨1⟩) = some ⟨1⟩ ∧
    geoS2.1.desiredGeolocationOptions = some ⟨1⟩ ∧ geoS2.2 = [some ⟨1⟩] ∧
    geoS3.2 = [] ∧
    geoS4.1.desiredGeolocationOptions = none ∧ geoS4.2 = [none] ∧
    geoS5.2 = [] := by
  have hmin : min (10 : ℚ) 1 = 1 := min_eq_right (by norm_num)
  have hgen1 : ∀ s : GeoProviderState,
      (updateDesiredGeolocationOptions s).1.desiredGeolocationOptions =
        mergedGeolocationOptions (s.sessionGeolocationOptions.map Prod.snd) := by
    intro s
    unfold updateDesiredGeolocationOptions
    dsimp only
    by_cases h : mergedGeolocationOptions (s.sessionGeolocationOptions.map Prod.snd) =
        s.lastForwarded
    · rw [if_pos h]
    · rw [if_neg h]
  have hgen2 : ∀ s : GeoProviderState,
      (updateDesiredGeolocationOptions s).2 =
        (if mergedGeolocationOptions (s.sessionGeolocationOptions.map Prod.snd) =
            s.lastForwarded then []
         else [mergedGeolocationOptions (s.sessionGeolocationOptions.map Prod.snd)]) := by
    intro s
    unfold updateDesiredGeolocationOptions
    dsimp only
    by_cases h : mergedGeolocationOptions (s.sessionGeolocationOptions.map Prod.snd) =
        s.lastForwarded
    · rw [if_pos h, if_pos h]
    · rw [if_neg h, if_neg h]
  have hmerge10 : mergeGeoOptions (some ⟨10⟩) (some ⟨1⟩) = some ⟨1⟩ := by
    show some (⟨min (10 : ℚ) 1⟩ : GeolocationOptions) = some ⟨1⟩
    rw [hmin]
  have h1 : geoS1 =
      ((⟨[("s1", some ⟨10⟩)], some ⟨10⟩, some ⟨10⟩⟩ : GeoProviderState),
        [some ⟨10⟩]) := rfl
  have h2a : geoS2 = updateDesiredGeolocationOptions
      ⟨[("s1", some ⟨10⟩), ("s2", some ⟨1⟩)], some ⟨10⟩, some ⟨10⟩⟩ := by
    unfold geoS2
    rw [h1]
    rfl
  have hmerge2 : mergedGeolocationOptions
      ([("s1", (some ⟨10⟩ : Option GeolocationOptions)),
        ("s2", some ⟨1⟩)].map Prod.snd) = some ⟨1⟩ := by
    show some (⟨min (10 : ℚ) 1⟩ : GeolocationOptions) = some ⟨1⟩
    rw [hmin]
  have h2 : geoS2 =
      ((⟨[("s1", some ⟨10⟩), ("s2", some ⟨1⟩)], some ⟨1⟩, some ⟨1⟩⟩ :
        GeoProviderState), [some ⟨1⟩]) := by
    rw [h2a]
    unfold updateDesiredGeolocationOptions
    dsimp only
    rw [hmerge2, if_neg (by norm_num)]
  have h3a : geoS3 = updateDesiredGeolocationOptions
      ⟨[("s2", some ⟨1⟩)], some ⟨1⟩, some ⟨1⟩⟩ := by
    unfold geoS3
    rw [h2]
    rfl
  have h3 : geoS3 =
      ((⟨[("s2", some ⟨1⟩)], some ⟨1⟩, some ⟨1⟩⟩ : GeoProviderState), []) := by
    rw [h3a]
    unfold updateDesiredGeolocationOptions
    dsimp only
    rw [if_pos (show mergedGeolocationOptions
      (List.map Prod.snd [("s2", (some ⟨1⟩ : Option GeolocationOptions))]) =
        some ⟨1⟩ from rfl)]
    rfl
  have h4 : geoS4 =
      ((⟨[], none, none⟩ : GeoProviderState), [none]) := by
    unfold geoS4
    rw [h3]
    rfl
  have h5 : geoS5 = ((⟨[], none, none⟩ : GeoProviderState), []) := by
    unfold geoS5
    rw [h4]
    rfl
  refine ⟨hgen1, hgen2, hmerge10, ?_, ?_, ?_, ?_, ?_, ?_⟩
  · rw [h2]
  · rw [h2]
  · rw [h3]
  · rw [h4]
  · rw [h4]
  · rw [h5]

